import Mathlib

/-!
Verification of the experience pipeline and V-trace off-policy correction of
this repository against its specification.

The V-trace test oracle `_ground_truth_calculation` (tests/vtrace_test.py),
the learner inference path and loss plumbing (agents/vtrace/learner.py) and
the actor reward bookkeeping (common/actor.py) are embedded below over exact
rational arithmetic.  The `[T, B]` float arrays of the source are modelled as
total functions `Nat → Nat → Rat` (time index, batch column); all array
operations of the source are elementwise in the batch column, so the batch
dimension is carried through unchanged.  The floating-point exponential
`np.exp` / `tf.exp` is kept abstract as a function parameter `e : Rat → Rat`:
every algebraic property proved below holds for an arbitrary `e`, and the
hypotheses that matter (for instance `e 0 = 1`) are exactly the properties of
the real exponential that the source relies on.
-/

namespace SeedRL

/-- A `[T, B]` array of the source, as a total function from time index and
batch column to a rational; entries outside the actual shape are junk and are
never consulted by the definitions below. -/
abbrev Mat : Type := Nat → Nat → Rat

/-- A `[B]` array of the source. -/
abbrev Vec : Type := Nat → Rat

/-- The tensor inputs of `_ground_truth_calculation` / `from_importance_weights`
(tests/vtrace_test.py, agents/vtrace/learner.py): log-probabilities of the
behaviour and target policies, discounts, rewards and value estimates, all
shaped `[T, B]`, plus the `[B]` bootstrap value. -/
structure VTraceInputs where
  behaviour_action_log_probs : Mat
  target_action_log_probs : Mat
  discounts : Mat
  rewards : Mat
  values : Mat
  bootstrap_value : Vec

/-- `log_rhos = target_action_log_probs - behaviour_action_log_probs`
(tests/vtrace_test.py line 46). -/
def log_rhos (inp : VTraceInputs) : Mat := fun t b =>
  inp.target_action_log_probs t b - inp.behaviour_action_log_probs t b

/-- `rhos = np.exp(log_rhos)` (tests/vtrace_test.py line 49), with the
exponential kept abstract as `e`. -/
def gtRhos (e : Rat → Rat) (inp : VTraceInputs) : Mat := fun t b =>
  e (log_rhos inp t b)

/-- `cs = np.minimum(rhos, 1.0)` (tests/vtrace_test.py line 50): the trace
coefficients of the direct-definition oracle.  Note the oracle takes no
`lambda_` parameter; its coefficients carry no `λ` factor. -/
def gtCs (e : Rat → Rat) (inp : VTraceInputs) : Mat := fun t b =>
  min (gtRhos e inp t b) 1

/-- `clipped_rhos = np.minimum(rhos, clip_rho_threshold)` when the threshold
is set, else `rhos` (tests/vtrace_test.py lines 51-56); the same definition
serves `clipped_pg_rhos` with the other threshold.  `none` models an unset
(falsy) threshold. -/
def gtClippedRhos (e : Rat → Rat) (inp : VTraceInputs) (clip : Option Rat) : Mat :=
  fun t b =>
    match clip with
    | none => gtRhos e inp t b
    | some c => min (gtRhos e inp t b) c

/-- `values_t_plus_1 = np.concatenate([values, bootstrap_value[None, :]])`
(tests/vtrace_test.py line 68): `V(x_j)` for `j ≤ T` with
`V(x_T) = bootstrap_value`. -/
def valuesTP1 (T : Nat) (inp : VTraceInputs) : Mat := fun t b =>
  if t < T then inp.values t b else inp.bootstrap_value b

/-- The temporal-difference factor
`rewards[t] + discounts[t] * values_t_plus_1[t + 1] - values[t]` shared by the
oracle's summand (tests/vtrace_test.py line 75) and the spec's
`δ_t / ρ̄_t`. -/
def tdTerm (T : Nat) (inp : VTraceInputs) : Mat := fun t b =>
  inp.rewards t b + inp.discounts t b * valuesTP1 T inp (t + 1) b - inp.values t b

/-- The inner double summation of the oracle (tests/vtrace_test.py lines
69-76): `Σ_{t=s}^{T-1} Π_{i∈[s,t)} discounts[i] · Π_{i∈[s,t)} cs[i] ·
clipped_rhos[t] · (rewards[t] + discounts[t]·V(x_{t+1}) − values[t])`. -/
def gtTail (T : Nat) (e : Rat → Rat) (cr : Option Rat) (inp : VTraceInputs) : Mat :=
  fun s b =>
    ∑ t ∈ Finset.Ico s T,
      (∏ i ∈ Finset.Ico s t, inp.discounts i b)
        * (∏ i ∈ Finset.Ico s t, gtCs e inp i b)
        * gtClippedRhos e inp cr t b * tdTerm T inp t b

/-- `vs` of the direct O(T²) oracle: `v_s = V(x_s) + Σ ...`
(tests/vtrace_test.py lines 69-77). -/
def gtVs (T : Nat) (e : Rat → Rat) (cr : Option Rat) (inp : VTraceInputs) : Mat :=
  fun s b => inp.values s b + gtTail T e cr inp s b

/-- `pg_advantages = clipped_pg_rhos * (rewards + discounts *
concat([vs[1:], bootstrap_value]) - values)` of the oracle
(tests/vtrace_test.py lines 78-80). -/
def gtPgAdv (T : Nat) (e : Rat → Rat) (cr cpr : Option Rat) (inp : VTraceInputs) : Mat :=
  fun t b =>
    gtClippedRhos e inp cpr t b *
      (inp.rewards t b +
        inp.discounts t b *
          (if t + 1 < T then gtVs T e cr inp (t + 1) b else inp.bootstrap_value b)
        - inp.values t b)

/-- Modelled from the spec: the trace coefficient `c_t = min(ρ_t, 1) · λ` of
the recursive VTraceCorrector (§4.5).  The production implementation
`common/vtrace.py` (`from_importance_weights`) is not under `src/`; only its
callers and its test oracle are, so the recursion is modelled from the spec's
algorithm description. -/
def recCs (e : Rat → Rat) (lam : Rat) (inp : VTraceInputs) : Mat := fun t b =>
  min (gtRhos e inp t b) 1 * lam

/-- Modelled from the spec: the backward value-target recursion of §4.5,
`v_T = bootstrap_value` and
`v_t = V(x_t) + δ_t + γ_t · c_t · (v_{t+1} − V(x_{t+1}))` with
`δ_t = ρ̄_t · (r_t + γ_t V(x_{t+1}) − V(x_t))`, computed by structural
recursion on the number `k = T - t` of remaining steps so that it evaluates
by kernel reduction. -/
def vsRecAux (T : Nat) (e : Rat → Rat) (cr : Option Rat) (lam : Rat)
    (inp : VTraceInputs) (b : Nat) : Nat → Nat → Rat
  | 0, _ => inp.bootstrap_value b
  | k + 1, t =>
      inp.values t b + gtClippedRhos e inp cr t b * tdTerm T inp t b
        + inp.discounts t b * recCs e lam inp t b
          * (vsRecAux T e cr lam inp b k (t + 1) - valuesTP1 T inp (t + 1) b)

/-- Modelled from the spec: `v_t` of the recursive VTraceCorrector (§4.5),
for `t ≤ T` (with `v_T = bootstrap_value`). -/
def vsRec (T : Nat) (e : Rat → Rat) (cr : Option Rat) (lam : Rat)
    (inp : VTraceInputs) (t b : Nat) : Rat :=
  vsRecAux T e cr lam inp b (T - t) t

/-- Modelled from the spec: the policy-gradient advantage
`A_t = ρ̄_t^{pg} · (r_t + γ_t v_{t+1} − V(x_t))` of the recursive
VTraceCorrector (§4.5). -/
def pgAdvRec (T : Nat) (e : Rat → Rat) (cr cpr : Option Rat) (lam : Rat)
    (inp : VTraceInputs) : Mat := fun t b =>
  gtClippedRhos e inp cpr t b *
    (inp.rewards t b + inp.discounts t b * vsRec T e cr lam inp (t + 1) b
      - inp.values t b)

/-- Modelled from the spec: the standard λ-return recursion (§8 "On-policy
identity"): `G_T = bootstrap_value` and
`G_t = r_t + γ_t · ((1 − λ) · V(x_{t+1}) + λ · G_{t+1})`, by structural
recursion on the remaining steps. -/
def lambdaReturnsAux (T : Nat) (lam : Rat) (inp : VTraceInputs) (b : Nat) :
    Nat → Nat → Rat
  | 0, _ => inp.bootstrap_value b
  | k + 1, t =>
      inp.rewards t b +
        inp.discounts t b *
          ((1 - lam) * valuesTP1 T inp (t + 1) b
            + lam * lambdaReturnsAux T lam inp b k (t + 1))

/-- Modelled from the spec: the standard λ-return `G_t` computed from
`rewards`, `discounts`, `values` and `bootstrap_value` (§8). -/
def lambdaReturns (T : Nat) (lam : Rat) (inp : VTraceInputs) (t b : Nat) : Rat :=
  lambdaReturnsAux T lam inp b (T - t) t

lemma gtTail_of_le (T : Nat) (e : Rat → Rat) (cr : Option Rat)
    (inp : VTraceInputs) (s b : Nat) (h : T ≤ s) :
    gtTail T e cr inp s b = 0 := by
  unfold gtTail
  rw [Finset.Ico_eq_empty (by omega), Finset.sum_empty]

lemma gtTail_succ (T : Nat) (e : Rat → Rat) (cr : Option Rat)
    (inp : VTraceInputs) (s b : Nat) (h : s < T) :
    gtTail T e cr inp s b =
      gtClippedRhos e inp cr s b * tdTerm T inp s b
        + inp.discounts s b * gtCs e inp s b * gtTail T e cr inp (s + 1) b := by
  unfold gtTail
  rw [Finset.sum_eq_sum_Ico_succ_bot h]
  congr 1
  · simp
  · rw [Finset.mul_sum]
    apply Finset.sum_congr rfl
    intro t ht
    have hst : s < t := (Finset.mem_Ico.mp ht).1
    rw [Finset.prod_eq_prod_Ico_succ_bot hst (fun i => inp.discounts i b),
      Finset.prod_eq_prod_Ico_succ_bot hst (fun i => gtCs e inp i b)]
    ring

lemma vsRecAux_eq_direct (T : Nat) (e : Rat → Rat) (cr : Option Rat)
    (inp : VTraceInputs) (b : Nat) :
    ∀ k t, T - t = k →
      vsRecAux T e cr 1 inp b k t =
        if T ≤ t then inp.bootstrap_value b else gtVs T e cr inp t b := by
  intro k
  induction k with
  | zero =>
      intro t ht
      have : T ≤ t := by omega
      simp [vsRecAux, this]
  | succ k ih =>
      intro t ht
      have htT : t < T := by omega
      have hrec := ih (t + 1) (by omega)
      rw [if_neg (by omega)]
      show inp.values t b + gtClippedRhos e inp cr t b * tdTerm T inp t b
        + inp.discounts t b * recCs e 1 inp t b
          * (vsRecAux T e cr 1 inp b k (t + 1) - valuesTP1 T inp (t + 1) b)
        = gtVs T e cr inp t b
      rw [hrec]
      have hdiff :
          (if T ≤ t + 1 then inp.bootstrap_value b else gtVs T e cr inp (t + 1) b)
            - valuesTP1 T inp (t + 1) b = gtTail T e cr inp (t + 1) b := by
        by_cases h2 : T ≤ t + 1
        · rw [if_pos h2, gtTail_of_le T e cr inp _ b h2]
          unfold valuesTP1
          rw [if_neg (by omega)]
          ring
        · rw [if_neg h2]
          unfold gtVs valuesTP1
          rw [if_pos (by omega)]
          ring
      rw [hdiff, gtVs, gtTail_succ T e cr inp t b htT]
      unfold recCs gtCs
      ring

/-- C1 (amended): for every input and every setting of the clip thresholds,
the spec's recursive VTraceCorrector returns the same `(vs, pg_advantages)`
as the direct O(T²) double-summation oracle `_ground_truth_calculation`
exactly in the case `lambda_ = 1` (the oracle takes no `lambda_` and
implements the `λ = 1` instance). -/
theorem c1_recursive_matches_direct (T : Nat) (e : Rat → Rat)
    (cr cpr : Option Rat) (lam : Rat) (inp : VTraceInputs)
    (hlam : lam = 1) :
    ∀ t b, t < T →
      vsRec T e cr lam inp t b = gtVs T e cr inp t b
        ∧ pgAdvRec T e cr cpr lam inp t b = gtPgAdv T e cr cpr inp t b := by
  subst hlam
  intro t b ht
  have hvs : ∀ u, vsRec T e cr 1 inp u b =
      if T ≤ u then inp.bootstrap_value b else gtVs T e cr inp u b := by
    intro u
    exact vsRecAux_eq_direct T e cr inp b (T - u) u rfl
  constructor
  · rw [hvs t, if_neg (by omega)]
  · unfold pgAdvRec gtPgAdv
    rw [hvs (t + 1)]
    by_cases h2 : t + 1 < T
    · rw [if_neg (by omega), if_pos h2]
    · rw [if_pos (by omega), if_neg h2]

/-- A linear stand-in for the abstract exponential in concrete instances:
`e x = x + 1` satisfies `e 0 = 1`, and the finitely many positive values it
takes in the instances below are all attainable by the real exponential. -/
def eLin : Rat → Rat := fun x => x + 1

/-- A concrete `T = 2`, `B = 1` V-trace input: on-policy log-probs (all
zero), constant discount 1/2, constant reward 1, zero values, bootstrap 1. -/
def inpC1 : VTraceInputs where
  behaviour_action_log_probs := fun _ _ => 0
  target_action_log_probs := fun _ _ => 0
  discounts := fun _ _ => 1 / 2
  rewards := fun _ _ => 1
  values := fun _ _ => 0
  bootstrap_value := fun _ => 1

/-- C1 (counterexample): with `lambda_ = 1/2` (inside the stated range
`(0, 1]`) the recursive VTraceCorrector and the direct oracle disagree on a
concrete `T = 2`, `B = 1` input: the recursion's trace coefficient carries
the extra `λ` factor, the oracle's does not. -/
theorem c1_counterexample :
    (0 < (1 / 2 : Rat) ∧ (1 / 2 : Rat) ≤ 1)
      ∧ vsRec 2 eLin none (1 / 2) inpC1 0 0 ≠ gtVs 2 eLin none inpC1 0 0 := by
  refine ⟨⟨by norm_num, by norm_num⟩, ?_⟩
  norm_num [vsRec, vsRecAux, recCs, gtVs, gtTail, gtCs, gtClippedRhos, gtRhos,
    log_rhos, tdTerm, valuesTP1, inpC1, eLin,
    Finset.sum_Ico_eq_sum_range, Finset.prod_Ico_eq_prod_range,
    Finset.sum_range_succ, Finset.prod_range_succ]

/-- C1 (witness): at `lambda_ = 1` the theorem applies to the concrete input
`inpC1` and both outputs agree at `t = 0`. -/
theorem c1_witness :
    ((1 : Rat) = 1 ∧ 0 < 2)
      ∧ (vsRec 2 eLin none 1 inpC1 0 0 = gtVs 2 eLin none inpC1 0 0
          ∧ pgAdvRec 2 eLin none none 1 inpC1 0 0 = gtPgAdv 2 eLin none none inpC1 0 0) :=
  ⟨⟨rfl, by norm_num⟩, c1_recursive_matches_direct 2 eLin none none 1 inpC1 rfl 0 0 (by norm_num)⟩

lemma onPolicy_col (T : Nat) (e : Rat → Rat) (cr : Option Rat)
    (inp : VTraceInputs) (b : Nat)
    (hcs : ∀ i, i < T → gtCs e inp i b = 1)
    (hclip : ∀ i, i < T → gtClippedRhos e inp cr i b = 1) :
    ∀ k t, T - t = k → t < T →
      inp.values t b + gtTail T e cr inp t b = lambdaReturnsAux T 1 inp b k t := by
  intro k
  induction k with
  | zero => intro t ht htT; omega
  | succ k ih =>
      intro t ht htT
      rw [gtTail_succ T e cr inp t b htT, hclip t htT, hcs t htT]
      show inp.values t b
          + (1 * tdTerm T inp t b + inp.discounts t b * 1 * gtTail T e cr inp (t + 1) b)
        = inp.rewards t b
            + inp.discounts t b *
              ((1 - 1) * valuesTP1 T inp (t + 1) b
                + 1 * lambdaReturnsAux T 1 inp b k (t + 1))
      by_cases h2 : t + 1 < T
      · rw [← ih (t + 1) (by omega) h2]
        unfold tdTerm valuesTP1
        rw [if_pos h2]
        ring
      · have hT : T ≤ t + 1 := by omega
        have hk : k = 0 := by omega
        subst hk
        rw [gtTail_of_le T e cr inp (t + 1) b hT]
        show _ = inp.rewards t b
            + inp.discounts t b *
              ((1 - 1) * valuesTP1 T inp (t + 1) b + 1 * inp.bootstrap_value b)
        unfold tdTerm valuesTP1
        rw [if_neg (by omega)]
        ring

/-- C2: when the behaviour and target log-probabilities coincide (so every
importance ratio is `e 0 = 1` and, provided the rho clip threshold is unset
or at least 1, no clipping is active), the `vs` output of the direct-summation
oracle equals the standard λ-return at the oracle's implicit `λ = 1`. -/
theorem c2_on_policy_identity (T B : Nat) (e : Rat → Rat) (cr : Option Rat)
    (inp : VTraceInputs)
    (he : e 0 = 1)
    (hcr : ∀ c, cr = some c → 1 ≤ c)
    (hon : ∀ t b, t < T → b < B →
      inp.behaviour_action_log_probs t b = inp.target_action_log_probs t b) :
    ∀ t b, t < T → b < B → gtVs T e cr inp t b = lambdaReturns T 1 inp t b := by
  intro t b ht hb
  have hrho : ∀ i, i < T → gtRhos e inp i b = 1 := by
    intro i hi
    unfold gtRhos log_rhos
    rw [← hon i b hi hb, sub_self, he]
  have hcs : ∀ i, i < T → gtCs e inp i b = 1 := by
    intro i hi
    unfold gtCs
    rw [hrho i hi]
    exact min_self 1
  have hclip : ∀ i, i < T → gtClippedRhos e inp cr i b = 1 := by
    intro i hi
    cases hc : cr with
    | none =>
        show gtRhos e inp i b = 1
        exact hrho i hi
    | some c =>
        show min (gtRhos e inp i b) c = 1
        rw [hrho i hi]
        exact min_eq_left (hcr c hc)
  unfold gtVs lambdaReturns
  exact onPolicy_col T e cr inp b hcs hclip (T - t) t rfl ht

/-- C2 (witness): the concrete on-policy input `inpC1` with no clipping
satisfies the hypotheses, and the oracle's `vs` equals the λ-return there. -/
theorem c2_witness :
    (eLin 0 = 1
      ∧ (∀ t b, t < 2 → b < 1 →
          inpC1.behaviour_action_log_probs t b = inpC1.target_action_log_probs t b))
      ∧ gtVs 2 eLin none inpC1 0 0 = lambdaReturns 2 1 inpC1 0 0 :=
  ⟨⟨by norm_num [eLin], fun _ _ _ _ => rfl⟩,
    c2_on_policy_identity 2 1 eLin none inpC1 (by norm_num [eLin])
      (fun c hc => nomatch hc) (fun _ _ _ _ => rfl) 0 0 (by norm_num) (by norm_num)⟩

/-- C3 (amended): the direct-definition oracle computes its trace
coefficients as `cs_t = min(ρ_t, 1)` with `ρ_t = exp(target − behaviour)` —
it takes no `lambda_` parameter — while the spec's recursive corrector uses
`c_t = min(ρ_t, 1) · λ`; the two coincide exactly at `λ = 1`. -/
theorem c3_trace_coefficients (e : Rat → Rat) (inp : VTraceInputs) (lam : Rat)
    (t b : Nat) :
    gtCs e inp t b
        = min (e (inp.target_action_log_probs t b
            - inp.behaviour_action_log_probs t b)) 1
      ∧ recCs e lam inp t b
          = min (e (inp.target_action_log_probs t b
              - inp.behaviour_action_log_probs t b)) 1 * lam
      ∧ recCs e 1 inp t b = gtCs e inp t b := by
  refine ⟨rfl, rfl, ?_⟩
  unfold recCs gtCs
  exact mul_one _

/-- C3 (counterexample): with `λ = 1/2` (inside the stated range `(0, 1]`)
the oracle's coefficient `min(ρ_t, 1)` differs from the claimed
`min(ρ_t, 1) · λ` on a concrete input with `ρ = 1`. -/
theorem c3_counterexample :
    (0 < (1 / 2 : Rat) ∧ (1 / 2 : Rat) ≤ 1)
      ∧ gtCs eLin inpC1 0 0 ≠ min (gtRhos eLin inpC1 0 0) 1 * (1 / 2) := by
  refine ⟨⟨by norm_num, by norm_num⟩, ?_⟩
  norm_num [gtCs, gtRhos, log_rhos, inpC1, eLin]

/-- C7 (amended): for two inputs differing only in the target log-probs, if
the rho clip threshold is at least 1 and lies at or below every importance
ratio produced by either input, then the `vs` outputs coincide: the clipped
ratios saturate at the threshold and the trace coefficients `min(ρ_t, 1)`
saturate at 1.  (Without `1 ≤ c` the claim fails: ratios between the
threshold and 1 still reach `vs` unclipped through the trace
coefficients.) -/
theorem c7_clip_saturation (T B : Nat) (e : Rat → Rat) (c : Rat)
    (inp : VTraceInputs) (tgt2 : Mat)
    (hc1 : 1 ≤ c)
    (hr1 : ∀ t b, t < T → b < B → c ≤ gtRhos e inp t b)
    (hr2 : ∀ t b, t < T → b < B →
      c ≤ gtRhos e { inp with target_action_log_probs := tgt2 } t b) :
    ∀ t b, t < T → b < B →
      gtVs T e (some c) inp t b
        = gtVs T e (some c) { inp with target_action_log_probs := tgt2 } t b := by
  intro t b ht hb
  have hclip : ∀ i, i < T →
      gtClippedRhos e inp (some c) i b = c
        ∧ gtClippedRhos e { inp with target_action_log_probs := tgt2 } (some c) i b
            = c := by
    intro i hi
    exact ⟨min_eq_right (hr1 i b hi hb), min_eq_right (hr2 i b hi hb)⟩
  have hcs : ∀ i, i < T →
      gtCs e inp i b = 1
        ∧ gtCs e { inp with target_action_log_probs := tgt2 } i b = 1 := by
    intro i hi
    exact ⟨min_eq_right (le_trans hc1 (hr1 i b hi hb)),
      min_eq_right (le_trans hc1 (hr2 i b hi hb))⟩
  unfold gtVs gtTail
  congr 1
  apply Finset.sum_congr rfl
  intro x hx
  have hxT : x < T := (Finset.mem_Ico.mp hx).2
  have h2 : (∏ i ∈ Finset.Ico t x, gtCs e inp i b)
      = ∏ i ∈ Finset.Ico t x,
          gtCs e { inp with target_action_log_probs := tgt2 } i b := by
    apply Finset.prod_congr rfl
    intro i hi
    have hiT : i < T := lt_trans (Finset.mem_Ico.mp hi).2 hxT
    rw [(hcs i hiT).1, (hcs i hiT).2]
  rw [(hclip x hxT).1, (hclip x hxT).2, h2]
  rfl

/-- A variant of `inpC1` whose importance ratios are `1/2` at every step
(`eLin (-(1/2)) = 1/2`, matching a real exponential at `ln(1/2)`). -/
def inpC7a : VTraceInputs :=
  { inpC1 with target_action_log_probs := fun _ _ => -(1 / 2) }

/-- A variant of `inpC1` whose importance ratios are `9/10` at every step. -/
def inpC7b : VTraceInputs :=
  { inpC1 with target_action_log_probs := fun _ _ => -(1 / 10) }

/-- C7 (counterexample): a threshold of `1/4`, strictly below every ratio of
both inputs (ratios `1/2` and `9/10`), does not make `vs` agree: the trace
coefficients `min(ρ_t, 1)` still differ between the two runs. -/
theorem c7_counterexample :
    ((∀ t b, t < 2 → b < 1 → (1 / 4 : Rat) < gtRhos eLin inpC7a t b)
      ∧ (∀ t b, t < 2 → b < 1 → (1 / 4 : Rat) < gtRhos eLin inpC7b t b))
      ∧ gtVs 2 eLin (some (1 / 4)) inpC7a 0 0
          ≠ gtVs 2 eLin (some (1 / 4)) inpC7b 0 0 := by
  refine ⟨⟨fun t b _ _ => by norm_num [gtRhos, log_rhos, inpC7a, inpC1, eLin],
    fun t b _ _ => by norm_num [gtRhos, log_rhos, inpC7b, inpC1, eLin]⟩, ?_⟩
  norm_num [gtVs, gtTail, gtCs, gtClippedRhos, gtRhos, log_rhos, tdTerm,
    valuesTP1, inpC7a, inpC7b, inpC1, eLin, min_def,
    Finset.sum_Ico_eq_sum_range, Finset.prod_Ico_eq_prod_range,
    Finset.sum_range_succ, Finset.prod_range_succ]

/-- C7 (witness): with threshold `1` (≥ 1) at or below all ratios of both the
on-policy input (ratios 1) and its target-shifted variant (ratios 2), the
amended theorem applies and the `vs` outputs agree. -/
theorem c7_witness :
    ((1 : Rat) ≤ 1
      ∧ (∀ t b, t < 2 → b < 1 → (1 : Rat) ≤ gtRhos eLin inpC1 t b)
      ∧ (∀ t b, t < 2 → b < 1 →
          (1 : Rat) ≤ gtRhos eLin
            { inpC1 with target_action_log_probs := fun _ _ => 1 } t b))
      ∧ gtVs 2 eLin (some 1) inpC1 0 0
          = gtVs 2 eLin (some 1)
              { inpC1 with target_action_log_probs := fun _ _ => 1 } 0 0 :=
  ⟨⟨le_refl 1, fun t b _ _ => by norm_num [gtRhos, log_rhos, inpC1, eLin],
      fun t b _ _ => by norm_num [gtRhos, log_rhos, inpC1, eLin]⟩,
    c7_clip_saturation 2 1 eLin 1 inpC1 (fun _ _ => 1) (le_refl 1)
      (fun t b _ _ => by norm_num [gtRhos, log_rhos, inpC1, eLin])
      (fun t b _ _ => by norm_num [gtRhos, log_rhos, inpC1, eLin])
      0 0 (by norm_num) (by norm_num)⟩

/-!
The learner's inference path (agents/vtrace/learner.py, `create_inference_fn`
/ `inference`, lines 355-412).  The tensor tables `utils.Aggregator` and the
window assembler `utils.UnrollStore` live in `common/utils.py`, which is not
under `src/`; they are modelled from the spec's PerEnvironmentTable (§4.1)
and UnrollAssembler (§4.2) contracts.  Types are abstract: `σ` is the agent
recurrent state, `α` the action, `ω` the observation, `π` the full policy
output of the agent module (an external collaborator, passed in as a
function).  A batch is a list of per-slot entries; the `inference` TF
function is a state transformer returning `Except` so that the fatal
`tf.debugging.assert_non_positive` on `abandoned` is an `error` result. -/

/-- One `environment_output` record: `(reward, done, observation, abandoned,
episode_step)` (learner.py lines 199-206, actor.py line 101). -/
structure EnvOutput (ω : Type) where
  reward : Rat
  done : Bool
  observation : ω
  abandoned : Bool
  episode_step : Int
deriving DecidableEq

/-- One `env_infos` table entry: the per-slot episode counters
`(episode_num_frames, episode_return, episode_raw_return)` (learner.py lines
310-314). -/
structure InfoRec where
  episode_num_frames : Int
  episode_return : Rat
  episode_raw_return : Rat
deriving DecidableEq

/-- The zero value of the episode counters, used by `Aggregator.reset`. -/
def InfoRec.zero : InfoRec := ⟨0, 0, 0⟩

/-- Elementwise accumulation of episode counters, used by `Aggregator.add`. -/
def InfoRec.add (a v : InfoRec) : InfoRec :=
  ⟨a.episode_num_frames + v.episode_num_frames,
    a.episode_return + v.episode_return,
    a.episode_raw_return + v.episode_raw_return⟩

/-- Modelled from the spec: `Aggregator.read(ids)` of the
PerEnvironmentTable (§4.1) — current values for the given ids, in order. -/
def tblRead {V : Type} (f : Nat → V) (ids : List Nat) : List V := ids.map f

/-- Modelled from the spec: `Aggregator.replace(ids, values)` (§4.1) —
overwrite the entries for the given ids, in order. -/
def tblReplace {V : Type} (f : Nat → V) : List Nat → List V → Nat → V
  | [], _, n => f n
  | _ :: _, [], n => f n
  | i :: is, v :: vs, n => tblReplace (Function.update f i v) is vs n

/-- Modelled from the spec: `Aggregator.reset(ids)` (§4.1) and the batched
`replace` with one repeated value (the learner replaces agent states of the
slots needing reset with `agent.initial_state(k)`, `k` identical rows) —
set every listed entry to the same value. -/
def tblSetConst {V : Type} (f : Nat → V) (c : V) : List Nat → Nat → V
  | [], n => f n
  | i :: is, n => tblSetConst (Function.update f i c) c is n

/-- Modelled from the spec: `Aggregator.add(ids, values)` on the episode
counters (§4.1) — elementwise accumulate. -/
def tblAdd (f : Nat → InfoRec) : List Nat → List InfoRec → Nat → InfoRec
  | [], _, n => f n
  | _ :: _, [], n => f n
  | i :: is, v :: vs, n => tblAdd (Function.update f i ((f i).add v)) is vs n

/-- `tf.gather(env_ids, tf.where(tf.not_equal(previous_run_ids, run_ids)))`
(learner.py lines 359-361): the env ids whose stored run id differs from the
incoming one. -/
def resetIds (f : Nat → Int) : List Nat → List Int → List Nat
  | i :: is, r :: rs =>
      if f i ≠ r then i :: resetIds f is rs else resetIds f is rs
  | _, _ => []

/-- `tf.gather(env_ids, tf.where(env_outputs.done))` (learner.py line 378):
the env ids whose incoming step has `done = true`. -/
def doneIds {ω : Type} : List Nat → List (EnvOutput ω) → List Nat
  | i :: is, o :: os =>
      if o.done then i :: doneIds is os else doneIds is os
  | _, _ => []

/-- Modelled from the spec: `UnrollStore.append(ids, step_records)` of the
UnrollAssembler (§4.2).  Each step is appended to its slot's in-progress
window; a window reaching `unroll_length + 1` steps is emitted and the next
window restarts overlap-by-one with the emitted window's last step.  Returns
the new buffers, the completed ids and the completed windows, in id order. -/
def storeAppend {S : Type} (L : Nat) (bufs : Nat → List S) :
    List (Nat × S) → (Nat → List S) × List Nat × List (List S)
  | [] => (bufs, [], [])
  | (i, st) :: rest =>
      let buf := bufs i ++ [st]
      if buf.length = L + 1 then
        let r := storeAppend L (Function.update bufs i [st]) rest
        (r.1, i :: r.2.1, buf :: r.2.2)
      else
        storeAppend L (Function.update bufs i buf) rest

/-- The per-host mutable state owned by the inference function (learner.py
lines 322-337): stored run ids, episode counters, first-agent-state of the
current window, current agent state, last action, and the per-slot
in-progress unroll window of `(prev_action, env_output, agent_output)`
steps. -/
structure HostState (σ α ω π : Type) where
  runIds : Nat → Int
  infos : Nat → InfoRec
  firstAgentStates : Nat → σ
  agentStates : Nat → σ
  actions : Nat → α
  storeBuf : Nat → List (α × EnvOutput ω × π)

/-- The fixed parameters and external collaborators of one host's inference
function: the unroll length and `num_action_repeats` flags, the host index
`i` of `create_host`, the agent module's initial recurrent state and the
zero value of the action table, the action postprocessing of the parametric
distribution, and the agent module itself (`agent_step` returns the policy
output and the next recurrent state). -/
structure LearnerConfig (σ α ω π : Type) where
  unroll_length : Nat
  num_action_repeats : Int
  host_index : Nat
  initial_state : σ
  zero_action : α
  postprocess : α → α
  agent_step : α → EnvOutput ω → σ → π × σ
  out_action : π → α

/-- The reset-detection block of `inference` (learner.py lines 356-370):
read the previous run ids, replace them unconditionally with the incoming
ones, and for the slots whose run id changed reset the episode counters,
discard the in-progress window, reinstall the initial agent state in both
agent-state tables and reset the last-action cache.  Returns the new state
and the ids needing reset. -/
def resetPhase {σ α ω π : Type} (cfg : LearnerConfig σ α ω π)
    (s : HostState σ α ω π) (envIds : List Nat) (runIds : List Int) :
    HostState σ α ω π × List Nat :=
  let needReset := resetIds s.runIds envIds runIds
  ({ runIds := tblReplace s.runIds envIds runIds
     infos := tblSetConst s.infos InfoRec.zero needReset
     firstAgentStates := tblSetConst s.firstAgentStates cfg.initial_state needReset
     agentStates := tblSetConst s.agentStates cfg.initial_state needReset
     actions := tblSetConst s.actions cfg.zero_action needReset
     storeBuf := tblSetConst s.storeBuf [] needReset }, needReset)

/-- The episode-bookkeeping block of `inference` (learner.py lines 376-382):
add `(0, reward, raw_reward)` to the counters of all incoming slots, read
the counters of the `done` slots and — only on the host with index 0 —
enqueue them on the (unbounded) info queue, reset the counters of the `done`
slots, then add `(num_action_repeats, 0, 0)` to the counters of all incoming
slots.  Returns the new state and the enqueued records. -/
def bookkeepingPhase {σ α ω π : Type} (cfg : LearnerConfig σ α ω π)
    (s : HostState σ α ω π) (envIds : List Nat)
    (envOutputs : List (EnvOutput ω)) (rawRewards : List Rat) :
    HostState σ α ω π × List InfoRec :=
  let infos1 := tblAdd s.infos envIds
    (List.zipWith (fun o rr => InfoRec.mk 0 o.reward rr) envOutputs rawRewards)
  let dids := doneIds envIds envOutputs
  let enq := if cfg.host_index = 0 then tblRead infos1 dids else []
  let infos2 := tblSetConst infos1 InfoRec.zero dids
  let infos3 := tblAdd infos2 envIds
    (envIds.map fun _ => InfoRec.mk cfg.num_action_repeats 0 0)
  ({ s with infos := infos3 }, enq)

/-- The unroll-feeding and state-advance block of `inference` (learner.py
lines 398-409): append the latest steps to the store, attach to each
completed window the cached first agent state, move the (still
pre-invocation) current agent state of the completed slots into the
first-agent-state cache, and only then store the post-invocation recurrent
states and the chosen actions for all incoming slots.  Returns the new
state and the enqueued unrolls (first agent state paired with the window). -/
def unrollPhase {σ α ω π : Type} (cfg : LearnerConfig σ α ω π)
    (s : HostState σ α ω π) (envIds : List Nat)
    (steps : List (α × EnvOutput ω × π)) (currStates : List σ)
    (newActions : List α) :
    HostState σ α ω π × List (σ × List (α × EnvOutput ω × π)) :=
  let ap := storeAppend cfg.unroll_length s.storeBuf (envIds.zip steps)
  let enriched := (tblRead s.firstAgentStates ap.2.1).zip ap.2.2
  ({ s with
      storeBuf := ap.1
      firstAgentStates :=
        tblReplace s.firstAgentStates ap.2.1 (tblRead s.agentStates ap.2.1)
      agentStates := tblReplace s.agentStates envIds currStates
      actions := tblReplace s.actions envIds newActions }, enriched)

/-- The outputs of one `inference` call: the new host state, the episode
summaries enqueued on the info queue, the completed unrolls enqueued on the
unroll queue, and the postprocessed action batch returned to the actor. -/
structure InferenceResult (σ α ω π : Type) where
  state : HostState σ α ω π
  enqueuedInfos : List InfoRec
  enqueuedUnrolls : List (σ × List (α × EnvOutput ω × π))
  actionsOut : List α

/-- The `inference` TF function (learner.py lines 355-412), as a state
transformer over `HostState`: reset detection, the fatal abandoned-step
assertion (`tf.debugging.assert_non_positive` on `env_outputs.abandoned`,
modelled as an `Except.error`), episode bookkeeping, policy invocation
(external `cfg.agent_step` on the postprocessed previous action, the
incoming env output and the cached recurrent state), unroll feeding and
state advance, and finally the postprocessed action batch. -/
def inference {σ α ω π : Type} (cfg : LearnerConfig σ α ω π)
    (s : HostState σ α ω π) (envIds : List Nat) (runIds : List Int)
    (envOutputs : List (EnvOutput ω)) (rawRewards : List Rat) :
    Except String (InferenceResult σ α ω π) :=
  let s1 := (resetPhase cfg s envIds runIds).1
  if envOutputs.any (fun o => o.abandoned) then
    Except.error "Abandoned done states are not supported in VTRACE."
  else
    let bk := bookkeepingPhase cfg s1 envIds envOutputs rawRewards
    let s2 := bk.1
    let prevActions := (tblRead s2.actions envIds).map cfg.postprocess
    let prevStates := tblRead s2.agentStates envIds
    let stepOuts := List.zipWith (fun po st => cfg.agent_step po.1 po.2 st)
      (prevActions.zip envOutputs) prevStates
    let agentOuts := stepOuts.map Prod.fst
    let currStates := stepOuts.map Prod.snd
    let steps := prevActions.zip (envOutputs.zip agentOuts)
    let up := unrollPhase cfg s2 envIds steps currStates
      (agentOuts.map cfg.out_action)
    Except.ok
      { state := up.1
        enqueuedInfos := bk.2
        enqueuedUnrolls := up.2
        actionsOut := (agentOuts.map cfg.out_action).map cfg.postprocess }

lemma tblSetConst_apply {V : Type} (c : V) :
    ∀ (ids : List Nat) (f : Nat → V) (n : Nat),
      tblSetConst f c ids n = if n ∈ ids then c else f n := by
  intro ids
  induction ids with
  | nil => intro f n; simp [tblSetConst]
  | cons i is ih =>
      intro f n
      show tblSetConst (Function.update f i c) c is n = _
      rw [ih]
      by_cases h1 : n ∈ is
      · simp [h1]
      · by_cases h2 : n = i
        · simp [h1, h2, Function.update_apply]
        · simp [h1, h2, Function.update_apply]

lemma tblReplace_apply_not_mem {V : Type} :
    ∀ (ids : List Nat) (vs : List V) (f : Nat → V) (n : Nat), n ∉ ids →
      tblReplace f ids vs n = f n := by
  intro ids
  induction ids with
  | nil => intro vs f n _; rfl
  | cons i is ih =>
      intro vs f n hn
      have h1 : n ≠ i := fun e => hn (by simp [e])
      have h2 : n ∉ is := fun e => hn (by simp [e])
      cases vs with
      | nil => rfl
      | cons v vt =>
          show tblReplace (Function.update f i v) is vt n = f n
          rw [ih vt _ n h2, Function.update_apply, if_neg h1]

lemma tblReplace_apply_mem {V : Type} :
    ∀ (ids : List Nat) (vs : List V) (f : Nat → V) (n : Nat) (v : V),
      ids.Nodup → (n, v) ∈ ids.zip vs → tblReplace f ids vs n = v := by
  intro ids
  induction ids with
  | nil => intro vs f n v _ h; simp at h
  | cons i is ih =>
      intro vs f n v hnd hm
      cases vs with
      | nil => simp at hm
      | cons w vt =>
          obtain ⟨hna, hnd2⟩ := List.nodup_cons.mp hnd
          rw [List.zip_cons_cons, List.mem_cons] at hm
          show tblReplace (Function.update f i w) is vt n = v
          rcases hm with he | ht
          · obtain ⟨rfl, rfl⟩ := Prod.mk.inj he
            rw [tblReplace_apply_not_mem is vt _ n hna, Function.update_same]
          · exact ih vt _ n v hnd2 ht

lemma tblAdd_apply_not_mem :
    ∀ (ids : List Nat) (vs : List InfoRec) (f : Nat → InfoRec) (n : Nat),
      n ∉ ids → tblAdd f ids vs n = f n := by
  intro ids
  induction ids with
  | nil => intro vs f n _; rfl
  | cons i is ih =>
      intro vs f n hn
      have h1 : n ≠ i := fun e => hn (by simp [e])
      have h2 : n ∉ is := fun e => hn (by simp [e])
      cases vs with
      | nil => rfl
      | cons v vt =>
          show tblAdd (Function.update f i ((f i).add v)) is vt n = f n
          rw [ih vt _ n h2, Function.update_apply, if_neg h1]

lemma fst_mem_of_mem_zip {A B : Type} :
    ∀ {l1 : List A} {l2 : List B} {a : A} {b : B},
      (a, b) ∈ l1.zip l2 → a ∈ l1 := by
  intro l1
  induction l1 with
  | nil => intro l2 a b h; simp at h
  | cons x xs ih =>
      intro l2 a b h
      cases l2 with
      | nil => simp at h
      | cons y ys =>
          rw [List.zip_cons_cons, List.mem_cons] at h
          rcases h with he | ht
          · exact (Prod.mk.inj he).1 ▸ List.mem_cons_self x xs
          · exact List.mem_cons_of_mem x (ih ht)

lemma self_zip_map_mem {A B : Type} (f : A → B) :
    ∀ {l : List A} {a : A}, a ∈ l → (a, f a) ∈ l.zip (l.map f) := by
  intro l
  induction l with
  | nil => intro a h; simp at h
  | cons x xs ih =>
      intro a h
      rw [List.map_cons, List.zip_cons_cons, List.mem_cons]
      rcases List.mem_cons.mp h with he | ht
      · exact Or.inl (by rw [he])
      · exact Or.inr (ih ht)

lemma tblAdd_apply_mem :
    ∀ (ids : List Nat) (vs : List InfoRec) (f : Nat → InfoRec) (n : Nat)
      (v : InfoRec),
      ids.Nodup → (n, v) ∈ ids.zip vs → tblAdd f ids vs n = (f n).add v := by
  intro ids
  induction ids with
  | nil => intro vs f n v _ h; simp at h
  | cons i is ih =>
      intro vs f n v hnd hm
      cases vs with
      | nil => simp at hm
      | cons w vt =>
          obtain ⟨hna, hnd2⟩ := List.nodup_cons.mp hnd
          rw [List.zip_cons_cons, List.mem_cons] at hm
          show tblAdd (Function.update f i ((f i).add w)) is vt n = (f n).add v
          rcases hm with he | ht
          · obtain ⟨rfl, rfl⟩ := Prod.mk.inj he
            rw [tblAdd_apply_not_mem is vt _ n hna, Function.update_same]
          · have hni : n ≠ i := fun e => hna (e ▸ fst_mem_of_mem_zip ht)
            rw [ih vt _ n v hnd2 ht, Function.update_apply, if_neg hni]

lemma resetIds_subset (f : Nat → Int) :
    ∀ (is : List Nat) (rs : List Int) (i : Nat),
      i ∈ resetIds f is rs → i ∈ is := by
  intro is
  induction is with
  | nil => intro rs i h; simp [resetIds] at h
  | cons a as ih =>
      intro rs i h
      cases rs with
      | nil => simp [resetIds] at h
      | cons r rt =>
          rw [resetIds] at h
          by_cases hf : f a ≠ r
          · rw [if_pos hf, List.mem_cons] at h
            rcases h with he | ht
            · exact he ▸ List.mem_cons_self a as
            · exact List.mem_cons_of_mem a (ih rt i ht)
          · rw [if_neg hf] at h
            exact List.mem_cons_of_mem a (ih rt i h)

lemma resetIds_mem_iff (f : Nat → Int) :
    ∀ (is : List Nat) (rs : List Int), is.Nodup →
      ∀ (i : Nat) (r : Int), (i, r) ∈ is.zip rs →
        (i ∈ resetIds f is rs ↔ f i ≠ r) := by
  intro is
  induction is with
  | nil => intro rs _ i r h; simp at h
  | cons a as ih =>
      intro rs hnd i r hm
      cases rs with
      | nil => simp at hm
      | cons q qt =>
          obtain ⟨hna, hnd2⟩ := List.nodup_cons.mp hnd
          rw [List.zip_cons_cons, List.mem_cons] at hm
          rcases hm with he | ht
          · obtain ⟨rfl, rfl⟩ := Prod.mk.inj he
            constructor
            · intro hmem hfq
              rw [resetIds, if_neg (fun h => h hfq)] at hmem
              exact hna (resetIds_subset f as qt i hmem)
            · intro hf
              rw [resetIds, if_pos hf]
              exact List.mem_cons_self i _
          · have hias : i ∈ as := fst_mem_of_mem_zip ht
            have hia : i ≠ a := fun e => hna (e ▸ hias)
            rw [resetIds]
            by_cases hf : f a ≠ q
            · rw [if_pos hf, List.mem_cons]
              rw [← ih qt hnd2 i r ht]
              simp [hia]
            · rw [if_neg hf]
              exact ih qt hnd2 i r ht

lemma doneIds_subset {ω : Type} :
    ∀ (is : List Nat) (os : List (EnvOutput ω)) (i : Nat),
      i ∈ doneIds is os → i ∈ is := by
  intro is
  induction is with
  | nil => intro os i h; simp [doneIds] at h
  | cons a as ih =>
      intro os i h
      cases os with
      | nil => simp [doneIds] at h
      | cons o ot =>
          rw [doneIds] at h
          by_cases hd : o.done
          · rw [if_pos hd, List.mem_cons] at h
            rcases h with he | ht
            · exact he ▸ List.mem_cons_self a as
            · exact List.mem_cons_of_mem a (ih ot i ht)
          · rw [if_neg hd] at h
            exact List.mem_cons_of_mem a (ih ot i h)

lemma doneIds_mem_iff {ω : Type} :
    ∀ (is : List Nat) (os : List (EnvOutput ω)), is.Nodup →
      ∀ (i : Nat) (o : EnvOutput ω), (i, o) ∈ is.zip os →
        (i ∈ doneIds is os ↔ o.done = true) := by
  intro is
  induction is with
  | nil => intro os _ i o h; simp at h
  | cons a as ih =>
      intro os hnd i o hm
      cases os with
      | nil => simp at hm
      | cons q qt =>
          obtain ⟨hna, hnd2⟩ := List.nodup_cons.mp hnd
          rw [List.zip_cons_cons, List.mem_cons] at hm
          rcases hm with he | ht
          · obtain ⟨rfl, rfl⟩ := Prod.mk.inj he
            constructor
            · intro hmem
              by_cases hd : o.done
              · exact hd
              · rw [doneIds, if_neg hd] at hmem
                exact absurd (doneIds_subset as qt i hmem) hna
            · intro hd
              rw [doneIds, if_pos hd]
              exact List.mem_cons_self i _
          · have hias : i ∈ as := fst_mem_of_mem_zip ht
            have hia : i ≠ a := fun e => hna (e ▸ hias)
            rw [doneIds]
            by_cases hd : q.done
            · rw [if_pos hd, List.mem_cons, ← ih qt hnd2 i o ht]
              simp [hia]
            · rw [if_neg hd]
              exact ih qt hnd2 i o ht

lemma doneIds_nodup {ω : Type} :
    ∀ (is : List Nat) (os : List (EnvOutput ω)), is.Nodup →
      (doneIds is os).Nodup := by
  intro is
  induction is with
  | nil => intro os _; cases os <;> simp [doneIds]
  | cons a as ih =>
      intro os hnd
      obtain ⟨hna, hnd2⟩ := List.nodup_cons.mp hnd
      cases os with
      | nil => simp [doneIds]
      | cons o ot =>
          rw [doneIds]
          by_cases hd : o.done
          · rw [if_pos hd]
            exact List.nodup_cons.mpr
              ⟨fun h => hna (doneIds_subset as ot a h), ih ot hnd2⟩
          · rw [if_neg hd]
            exact ih ot hnd2

lemma storeAppend_cids_subset {S : Type} (L : Nat) :
    ∀ (pairs : List (Nat × S)) (bufs : Nat → List S) (i : Nat),
      i ∈ (storeAppend L bufs pairs).2.1 → i ∈ pairs.map Prod.fst := by
  intro pairs
  induction pairs with
  | nil => intro bufs i h; simp [storeAppend] at h
  | cons p rest ih =>
      intro bufs i h
      obtain ⟨j, st⟩ := p
      simp only [storeAppend] at h
      by_cases hl : (bufs j ++ [st]).length = L + 1
      · rw [if_pos hl] at h
        rw [List.mem_cons] at h
        rw [List.map_cons, List.mem_cons]
        rcases h with he | ht
        · exact Or.inl he
        · exact Or.inr (ih _ i ht)
      · rw [if_neg hl] at h
        rw [List.map_cons, List.mem_cons]
        exact Or.inr (ih _ i h)

lemma storeAppend_cids_nodup {S : Type} (L : Nat) :
    ∀ (pairs : List (Nat × S)) (bufs : Nat → List S),
      (pairs.map Prod.fst).Nodup → (storeAppend L bufs pairs).2.1.Nodup := by
  intro pairs
  induction pairs with
  | nil => intro bufs _; simp [storeAppend]
  | cons p rest ih =>
      intro bufs hnd
      obtain ⟨j, st⟩ := p
      rw [List.map_cons] at hnd
      obtain ⟨hna, hnd2⟩ := List.nodup_cons.mp hnd
      simp only [storeAppend]
      by_cases hl : (bufs j ++ [st]).length = L + 1
      · rw [if_pos hl]
        exact List.nodup_cons.mpr
          ⟨fun h => hna (storeAppend_cids_subset L rest _ j h), ih _ hnd2⟩
      · rw [if_neg hl]
        exact ih _ hnd2

lemma storeAppend_cids_len {S : Type} (L : Nat) :
    ∀ (pairs : List (Nat × S)) (bufs : Nat → List S),
      (storeAppend L bufs pairs).2.1.length
        = (storeAppend L bufs pairs).2.2.length := by
  intro pairs
  induction pairs with
  | nil => intro bufs; rfl
  | cons p rest ih =>
      intro bufs
      obtain ⟨j, st⟩ := p
      simp only [storeAppend]
      by_cases hl : (bufs j ++ [st]).length = L + 1
      · rw [if_pos hl]
        simp [ih]
      · rw [if_neg hl]
        exact ih _

lemma zip_fst_nodup {A B : Type} :
    ∀ {l1 : List A} {l2 : List B}, l1.Nodup → ((l1.zip l2).map Prod.fst).Nodup := by
  intro l1
  induction l1 with
  | nil => intro l2 _; simp
  | cons a as ih =>
      intro l2 hnd
      cases l2 with
      | nil => simp
      | cons b bs =>
          obtain ⟨hna, hnd2⟩ := List.nodup_cons.mp hnd
          rw [List.zip_cons_cons, List.map_cons]
          refine List.nodup_cons.mpr ⟨?_, ih hnd2⟩
          intro h
          obtain ⟨p, hp, he⟩ := List.mem_map.mp h
          have hp2 : (p.1, p.2) ∈ as.zip bs := by rwa [Prod.mk.eta]
          have hp3 : p.1 ∈ as := fst_mem_of_mem_zip hp2
          rw [he] at hp3
          exact hna hp3

lemma zip_zipWith_mem {A B C : Type} (f : A → B → C) :
    ∀ {is : List Nat} {as : List A} {bs : List B} {i : Nat} {a : A} {b : B},
      (i, (a, b)) ∈ is.zip (as.zip bs) →
        (i, f a b) ∈ is.zip (List.zipWith f as bs) := by
  intro is
  induction is with
  | nil => intro as bs i a b h; simp at h
  | cons x xs ih =>
      intro as bs i a b h
      cases as with
      | nil => simp at h
      | cons y ys =>
          cases bs with
          | nil => simp at h
          | cons z zs =>
              rw [List.zip_cons_cons, List.zip_cons_cons, List.mem_cons] at h
              rw [List.zipWith_cons_cons, List.zip_cons_cons, List.mem_cons]
              rcases h with he | ht
              · obtain ⟨h1, h2⟩ := Prod.mk.inj he
                obtain ⟨h3, h4⟩ := Prod.mk.inj h2
                exact Or.inl (by rw [h1, h3, h4])
              · exact Or.inr (ih ht)

lemma zip_zip_left_mem {A B : Type} :
    ∀ {is : List Nat} {as : List A} {bs : List B} {i : Nat} {a : A} {b : B},
      (i, (a, b)) ∈ is.zip (as.zip bs) → (i, a) ∈ is.zip as := by
  intro is
  induction is with
  | nil => intro as bs i a b h; simp at h
  | cons x xs ih =>
      intro as bs i a b h
      cases as with
      | nil => simp at h
      | cons y ys =>
          cases bs with
          | nil => simp at h
          | cons z zs =>
              rw [List.zip_cons_cons, List.zip_cons_cons, List.mem_cons] at h
              rw [List.zip_cons_cons, List.mem_cons]
              rcases h with he | ht
              · obtain ⟨h1, h2⟩ := Prod.mk.inj he
                obtain ⟨h3, _⟩ := Prod.mk.inj h2
                exact Or.inl (by rw [h1, h3])
              · exact Or.inr (ih ht)

/-- C5: run ids of all incoming slots are replaced unconditionally; exactly
the slots whose stored run id differs from the incoming one have their
episode counters zeroed, their in-progress window discarded, both
agent-state caches set to the module's initial state and their last-action
cache reset; matching slots undergo none of these resets, and slots outside
the batch are untouched. -/
theorem c5_reset_semantics {σ α ω π : Type} (cfg : LearnerConfig σ α ω π)
    (s : HostState σ α ω π) (envIds : List Nat) (runIds : List Int)
    (hnd : envIds.Nodup) :
    (∀ (i : Nat) (r : Int), (i, r) ∈ envIds.zip runIds →
      ((resetPhase cfg s envIds runIds).1.runIds i = r
        ∧ (s.runIds i ≠ r →
            (resetPhase cfg s envIds runIds).1.infos i = InfoRec.zero
              ∧ (resetPhase cfg s envIds runIds).1.storeBuf i = []
              ∧ (resetPhase cfg s envIds runIds).1.firstAgentStates i
                  = cfg.initial_state
              ∧ (resetPhase cfg s envIds runIds).1.agentStates i
                  = cfg.initial_state
              ∧ (resetPhase cfg s envIds runIds).1.actions i = cfg.zero_action)
        ∧ (s.runIds i = r →
            (resetPhase cfg s envIds runIds).1.infos i = s.infos i
              ∧ (resetPhase cfg s envIds runIds).1.storeBuf i = s.storeBuf i
              ∧ (resetPhase cfg s envIds runIds).1.firstAgentStates i
                  = s.firstAgentStates i
              ∧ (resetPhase cfg s envIds runIds).1.agentStates i
                  = s.agentStates i
              ∧ (resetPhase cfg s envIds runIds).1.actions i = s.actions i)))
      ∧ (∀ i : Nat, i ∉ envIds →
          (resetPhase cfg s envIds runIds).1.runIds i = s.runIds i
            ∧ (resetPhase cfg s envIds runIds).1.infos i = s.infos i
            ∧ (resetPhase cfg s envIds runIds).1.storeBuf i = s.storeBuf i
            ∧ (resetPhase cfg s envIds runIds).1.firstAgentStates i
                = s.firstAgentStates i
            ∧ (resetPhase cfg s envIds runIds).1.agentStates i
                = s.agentStates i
            ∧ (resetPhase cfg s envIds runIds).1.actions i = s.actions i) := by
  have einfos : (resetPhase cfg s envIds runIds).1.infos
      = tblSetConst s.infos InfoRec.zero (resetIds s.runIds envIds runIds) := rfl
  have ebuf : (resetPhase cfg s envIds runIds).1.storeBuf
      = tblSetConst s.storeBuf [] (resetIds s.runIds envIds runIds) := rfl
  have efirst : (resetPhase cfg s envIds runIds).1.firstAgentStates
      = tblSetConst s.firstAgentStates cfg.initial_state
          (resetIds s.runIds envIds runIds) := rfl
  have eagent : (resetPhase cfg s envIds runIds).1.agentStates
      = tblSetConst s.agentStates cfg.initial_state
          (resetIds s.runIds envIds runIds) := rfl
  have eact : (resetPhase cfg s envIds runIds).1.actions
      = tblSetConst s.actions cfg.zero_action
          (resetIds s.runIds envIds runIds) := rfl
  have erun : (resetPhase cfg s envIds runIds).1.runIds
      = tblReplace s.runIds envIds runIds := rfl
  constructor
  · intro i r hm
    have hiff := resetIds_mem_iff s.runIds envIds runIds hnd i r hm
    refine ⟨?_, ?_, ?_⟩
    · rw [erun]
      exact tblReplace_apply_mem envIds runIds s.runIds i r hnd hm
    · intro hne
      have hin : i ∈ resetIds s.runIds envIds runIds := hiff.mpr hne
      rw [einfos, ebuf, efirst, eagent, eact]
      rw [tblSetConst_apply, tblSetConst_apply, tblSetConst_apply,
        tblSetConst_apply, tblSetConst_apply]
      simp [hin]
    · intro heq
      have hout : i ∉ resetIds s.runIds envIds runIds :=
        fun h => (hiff.mp h) heq
      rw [einfos, ebuf, efirst, eagent, eact]
      rw [tblSetConst_apply, tblSetConst_apply, tblSetConst_apply,
        tblSetConst_apply, tblSetConst_apply]
      simp [hout]
  · intro i hni
    have hout : i ∉ resetIds s.runIds envIds runIds :=
      fun h => hni (resetIds_subset s.runIds envIds runIds i h)
    rw [erun, einfos, ebuf, efirst, eagent, eact]
    rw [tblReplace_apply_not_mem envIds runIds s.runIds i hni]
    rw [tblSetConst_apply, tblSetConst_apply, tblSetConst_apply,
      tblSetConst_apply, tblSetConst_apply]
    simp [hout]

/-- A concrete learner configuration for the witnesses: integer agent state,
action and policy output, unit observation, unroll length 1, one action
repeat, host index 0. -/
def cfgW : LearnerConfig Int Int Unit Int where
  unroll_length := 1
  num_action_repeats := 1
  host_index := 0
  initial_state := 0
  zero_action := 0
  postprocess := id
  agent_step := fun a o st => (a + st + (if o.done then 1 else 0), st + 1)
  out_action := id

/-- A concrete host state for the witnesses: every slot stores run id 5,
counters (3, 2, 1), first agent state 7, current agent state 8, last action
9, and an empty in-progress window. -/
def sW : HostState Int Int Unit Int where
  runIds := fun _ => 5
  infos := fun _ => ⟨3, 2, 1⟩
  firstAgentStates := fun _ => 7
  agentStates := fun _ => 8
  actions := fun _ => 9
  storeBuf := fun _ => []

/-- C5 (witness): in a batch over slots 0 and 1 with incoming run ids 6 and
5, slot 0 (stored run id 5 ≠ 6) is reset and its run id replaced, while slot
1 keeps its counters. -/
theorem c5_witness :
    ([0, 1].Nodup ∧ ((0 : Nat), (6 : Int)) ∈ [0, 1].zip [6, 5]
        ∧ sW.runIds 0 ≠ 6 ∧ ((1 : Nat), (5 : Int)) ∈ [0, 1].zip [6, 5]
        ∧ sW.runIds 1 = 5)
      ∧ ((resetPhase cfgW sW [0, 1] [6, 5]).1.runIds 0 = 6
          ∧ (resetPhase cfgW sW [0, 1] [6, 5]).1.infos 0 = InfoRec.zero
          ∧ (resetPhase cfgW sW [0, 1] [6, 5]).1.agentStates 0
              = cfgW.initial_state
          ∧ (resetPhase cfgW sW [0, 1] [6, 5]).1.infos 1 = sW.infos 1) := by
  have h0 := (c5_reset_semantics cfgW sW [0, 1] [6, 5] (by decide)).1 0 6
    (by decide)
  have h1 := (c5_reset_semantics cfgW sW [0, 1] [6, 5] (by decide)).1 1 5
    (by decide)
  refine ⟨⟨by decide, by decide, by decide, by decide, by decide⟩,
    h0.1, (h0.2.1 (by decide)).1, (h0.2.1 (by decide)).2.2.2.1,
    (h1.2.2 (by decide)).1⟩

/-- C4: an inference batch containing any `abandoned = true` step (whatever
its `done` flag) makes the call fail with the fatal assertion and return no
action batch; a batch with `abandoned = false` everywhere passes the check
and the call returns normally. -/
theorem c4_abandoned_rejection {σ α ω π : Type} (cfg : LearnerConfig σ α ω π)
    (s : HostState σ α ω π) (envIds : List Nat) (runIds : List Int)
    (envOutputs : List (EnvOutput ω)) (rawRewards : List Rat) :
    (envOutputs.any (fun o => o.abandoned) = true →
      inference cfg s envIds runIds envOutputs rawRewards
        = Except.error "Abandoned done states are not supported in VTRACE.")
      ∧ (envOutputs.any (fun o => o.abandoned) = false →
          ∃ r, inference cfg s envIds runIds envOutputs rawRewards
            = Except.ok r) := by
  constructor
  · intro h
    simp [inference, h]
  · intro h
    have hc : ¬(envOutputs.any (fun o => o.abandoned) = true) := by simp [h]
    exact ⟨_, by simp only [inference]; rw [if_neg hc]⟩

/-- A non-terminal, non-abandoned environment step. -/
def envOk : EnvOutput Unit := ⟨2, false, (), false, 3⟩

/-- An abandoned environment step with `done = true` (the invariant
`abandoned ⇒ done` of the spec). -/
def envAb : EnvOutput Unit := ⟨2, true, (), true, 3⟩

/-- C4 (witness): a concrete batch containing the abandoned-with-done step
errors out, while the same call on a clean step returns an action batch. -/
theorem c4_witness :
    (([envAb].any (fun o => o.abandoned) = true)
        ∧ inference cfgW sW [0] [5] [envAb] [0]
            = Except.error "Abandoned done states are not supported in VTRACE.")
      ∧ (([envOk].any (fun o => o.abandoned) = false)
          ∧ ∃ r, inference cfgW sW [0] [5] [envOk] [0] = Except.ok r) :=
  ⟨⟨by decide,
      (c4_abandoned_rejection cfgW sW [0] [5] [envAb] [0]).1 (by decide)⟩,
    ⟨by decide,
      (c4_abandoned_rejection cfgW sW [0] [5] [envOk] [0]).2 (by decide)⟩⟩

/-- C9: every unroll emitted by the unroll-feeding block carries the
first-agent-state cached for its slot (captured when that window started);
the cache of each completing slot is then set to the recurrent state the
slot had before this call's policy invocation (the pre-invocation
`agent_states` read, taken before `agent_states` is overwritten with the
post-invocation states), slots that do not complete a window keep their
cached first-agent-state, and only after that handoff do the current-state
entries of all incoming slots receive the post-invocation states. -/
theorem c9_first_state_handoff {σ α ω π : Type} (cfg : LearnerConfig σ α ω π)
    (s : HostState σ α ω π) (envIds : List Nat)
    (steps : List (α × EnvOutput ω × π)) (currStates : List σ)
    (newActions : List α) (hnd : envIds.Nodup) :
    (unrollPhase cfg s envIds steps currStates newActions).2
        = ((storeAppend cfg.unroll_length s.storeBuf (envIds.zip steps)).2.1.map
              s.firstAgentStates).zip
            (storeAppend cfg.unroll_length s.storeBuf (envIds.zip steps)).2.2
      ∧ (∀ i,
          i ∈ (storeAppend cfg.unroll_length s.storeBuf (envIds.zip steps)).2.1 →
          (unrollPhase cfg s envIds steps currStates
              newActions).1.firstAgentStates i
            = s.agentStates i)
      ∧ (∀ i,
          i ∉ (storeAppend cfg.unroll_length s.storeBuf (envIds.zip steps)).2.1 →
          (unrollPhase cfg s envIds steps currStates
              newActions).1.firstAgentStates i
            = s.firstAgentStates i)
      ∧ (∀ (i : Nat) (c : σ), (i, c) ∈ envIds.zip currStates →
          (unrollPhase cfg s envIds steps currStates newActions).1.agentStates i
            = c) := by
  have hcnd :
      (storeAppend cfg.unroll_length s.storeBuf (envIds.zip steps)).2.1.Nodup :=
    storeAppend_cids_nodup cfg.unroll_length (envIds.zip steps) s.storeBuf
      (zip_fst_nodup hnd)
  have efirst : (unrollPhase cfg s envIds steps currStates
      newActions).1.firstAgentStates
      = tblReplace s.firstAgentStates
          (storeAppend cfg.unroll_length s.storeBuf (envIds.zip steps)).2.1
          ((storeAppend cfg.unroll_length s.storeBuf (envIds.zip steps)).2.1.map
            s.agentStates) := rfl
  have eagent : (unrollPhase cfg s envIds steps currStates
      newActions).1.agentStates
      = tblReplace s.agentStates envIds currStates := rfl
  refine ⟨rfl, ?_, ?_, ?_⟩
  · intro i hi
    rw [efirst]
    exact tblReplace_apply_mem _ _ s.firstAgentStates i (s.agentStates i) hcnd
      (self_zip_map_mem s.agentStates hi)
  · intro i hi
    rw [efirst]
    exact tblReplace_apply_not_mem _ _ s.firstAgentStates i hi
  · intro i c hm
    rw [eagent]
    exact tblReplace_apply_mem envIds currStates s.agentStates i c hnd hm

/-- A step record for the witness window. -/
def stepA : Int × EnvOutput Unit × Int := (1, envOk, 4)

/-- A second step record, completing a window of `unroll_length + 1 = 2`. -/
def stepB : Int × EnvOutput Unit × Int := (2, envOk, 5)

/-- The witness host state with one buffered step in every slot's window. -/
def sW9 : HostState Int Int Unit Int := { sW with storeBuf := fun _ => [stepA] }

/-- C9 (witness): appending one step to slot 0's one-step buffer completes a
window; the slot's first-agent-state cache then holds the pre-invocation
state 8, not the post-invocation state 11 that lands in `agentStates`. -/
theorem c9_witness :
    ([0].Nodup
        ∧ (0 : Nat) ∈ (storeAppend cfgW.unroll_length sW9.storeBuf
            ([0].zip [stepB])).2.1
        ∧ ((0 : Nat), (11 : Int)) ∈ [0].zip [11])
      ∧ ((unrollPhase cfgW sW9 [0] [stepB] [11] [12]).1.firstAgentStates 0
            = sW9.agentStates 0
          ∧ (unrollPhase cfgW sW9 [0] [stepB] [11] [12]).1.agentStates 0
              = 11) := by
  have h := c9_first_state_handoff cfgW sW9 [0] [stepB] [11] [12] (by decide)
  exact ⟨⟨by decide, by decide, by decide⟩,
    h.2.1 0 (by decide), h.2.2.2 0 11 (by decide)⟩

/-- C8 (amended): the episode-bookkeeping block credits the incoming reward
and raw reward to every slot's counters and then the frame count; for each
`done` slot the accumulated record (current reward included) is read and —
on the host with index 0 only — enqueued on the summary queue, once per done
slot (the done-id list has no duplicates), after which the slot's counters
are reset before receiving the new step's frame count; hosts with a nonzero
index enqueue nothing. -/
theorem c8_episode_bookkeeping {σ α ω π : Type} (cfg : LearnerConfig σ α ω π)
    (s : HostState σ α ω π) (envIds : List Nat)
    (envOutputs : List (EnvOutput ω)) (rawRewards : List Rat)
    (hnd : envIds.Nodup) :
    (∀ (i : Nat) (o : EnvOutput ω) (rr : Rat),
      (i, (o, rr)) ∈ envIds.zip (envOutputs.zip rawRewards) →
        ((o.done = true →
            (cfg.host_index = 0 →
              (s.infos i).add ⟨0, o.reward, rr⟩
                ∈ (bookkeepingPhase cfg s envIds envOutputs rawRewards).2)
              ∧ (bookkeepingPhase cfg s envIds envOutputs rawRewards).1.infos i
                  = InfoRec.zero.add ⟨cfg.num_action_repeats, 0, 0⟩)
          ∧ (o.done = false →
              (bookkeepingPhase cfg s envIds envOutputs rawRewards).1.infos i
                = ((s.infos i).add ⟨0, o.reward, rr⟩).add
                    ⟨cfg.num_action_repeats, 0, 0⟩)))
      ∧ (cfg.host_index ≠ 0 →
          (bookkeepingPhase cfg s envIds envOutputs rawRewards).2 = [])
      ∧ (doneIds envIds envOutputs).Nodup
      ∧ (cfg.host_index = 0 →
          (bookkeepingPhase cfg s envIds envOutputs rawRewards).2.length
            = (doneIds envIds envOutputs).length) := by
  have einfos : (bookkeepingPhase cfg s envIds envOutputs rawRewards).1.infos
      = tblAdd
          (tblSetConst
            (tblAdd s.infos envIds
              (List.zipWith (fun o rr => InfoRec.mk 0 o.reward rr) envOutputs
                rawRewards))
            InfoRec.zero (doneIds envIds envOutputs))
          envIds
          (envIds.map fun _ => InfoRec.mk cfg.num_action_repeats 0 0) := rfl
  have eenq : (bookkeepingPhase cfg s envIds envOutputs rawRewards).2
      = if cfg.host_index = 0 then
          tblRead
            (tblAdd s.infos envIds
              (List.zipWith (fun o rr => InfoRec.mk 0 o.reward rr) envOutputs
                rawRewards))
            (doneIds envIds envOutputs)
        else [] := rfl
  refine ⟨?_, ?_, doneIds_nodup envIds envOutputs hnd, ?_⟩
  · intro i o rr hm
    have hiI : i ∈ envIds := fst_mem_of_mem_zip hm
    have hio : (i, o) ∈ envIds.zip envOutputs := zip_zip_left_mem hm
    have hrec : (i, InfoRec.mk 0 o.reward rr)
        ∈ envIds.zip
            (List.zipWith (fun o rr => InfoRec.mk 0 o.reward rr) envOutputs
              rawRewards) :=
      zip_zipWith_mem _ hm
    have h1 : tblAdd s.infos envIds
        (List.zipWith (fun o rr => InfoRec.mk 0 o.reward rr) envOutputs
          rawRewards) i
        = (s.infos i).add ⟨0, o.reward, rr⟩ :=
      tblAdd_apply_mem envIds _ s.infos i _ hnd hrec
    have hnar : (i, InfoRec.mk cfg.num_action_repeats 0 0)
        ∈ envIds.zip
            (envIds.map fun _ => InfoRec.mk cfg.num_action_repeats 0 0) :=
      self_zip_map_mem _ hiI
    constructor
    · intro hdone
      have hdid : i ∈ doneIds envIds envOutputs :=
        (doneIds_mem_iff envIds envOutputs hnd i o hio).mpr hdone
      constructor
      · intro hh
        rw [eenq, if_pos hh, ← h1]
        exact List.mem_map_of_mem _ hdid
      · rw [einfos, tblAdd_apply_mem envIds _ _ i _ hnd hnar,
          tblSetConst_apply, if_pos hdid]
    · intro hdone
      have hdid : i ∉ doneIds envIds envOutputs := fun h =>
        (by simp [hdone] : ¬o.done = true)
          ((doneIds_mem_iff envIds envOutputs hnd i o hio).mp h)
      rw [einfos, tblAdd_apply_mem envIds _ _ i _ hnd hnar,
        tblSetConst_apply, if_neg hdid, h1]
  · intro hh
    rw [eenq, if_neg hh]
  · intro hh
    rw [eenq, if_pos hh]
    simp [tblRead]

/-- The witness configuration on a host with nonzero index. -/
def cfgH1 : LearnerConfig Int Int Unit Int := { cfgW with host_index := 1 }

/-- A terminal (`done = true`), non-abandoned environment step. -/
def envDone : EnvOutput Unit := ⟨2, true, (), false, 3⟩

/-- C8 (counterexample): on a host with index 1, an inference call whose
batch completes an episode (`done = true`) enqueues nothing on the summary
queue — the enqueue is gated on `if i == 0` in the source. -/
theorem c8_counterexample :
    envDone.done = true
      ∧ (inference cfgH1 sW [0] [5] [envDone] [1]).map
          (fun r => r.enqueuedInfos) = Except.ok [] :=
  ⟨rfl, rfl⟩

/-- C8 (witness): on host 0, the completed episode's record — the stored
counters plus the current reward — is enqueued and the slot's counters are
reset before the new frame increment. -/
theorem c8_witness :
    ([0].Nodup
        ∧ ((0 : Nat), (envDone, (1 : Rat))) ∈ [0].zip ([envDone].zip [1])
        ∧ envDone.done = true ∧ cfgW.host_index = 0)
      ∧ ((sW.infos 0).add ⟨0, envDone.reward, 1⟩
            ∈ (bookkeepingPhase cfgW sW [0] [envDone] [1]).2
          ∧ (bookkeepingPhase cfgW sW [0] [envDone] [1]).1.infos 0
              = InfoRec.zero.add ⟨cfgW.num_action_repeats, 0, 0⟩) := by
  have h := ((c8_episode_bookkeeping cfgW sW [0] [envDone] [1]
    (by decide)).1 0 envDone 1 (List.mem_cons_self _ _)).1 rfl
  exact ⟨⟨by decide, List.mem_cons_self _ _, rfl, rfl⟩, h.1 rfl, h.2⟩

lemma getElem?_zipWith_some {A B C : Type} (f : A → B → C) :
    ∀ (l1 : List A) (l2 : List B) (i : Nat) (a : A) (b : B),
      l1[i]? = some a → l2[i]? = some b →
        (List.zipWith f l1 l2)[i]? = some (f a b) := by
  intro l1
  induction l1 with
  | nil => intro l2 i a b h1 _; simp at h1
  | cons x xs ih =>
      intro l2 i a b h1 h2
      cases l2 with
      | nil => simp at h2
      | cons y ys =>
          cases i with
          | zero =>
              simp at h1 h2
              simp [List.zipWith_cons_cons, h1, h2]
          | succ j =>
              simp only [List.getElem?_cons_succ] at h1 h2
              simp only [List.zipWith_cons_cons, List.getElem?_cons_succ]
              exact ih ys j a b h1 h2

/-- One step of the learner batch's `agent_outputs` (the actor-side policy
outputs stored in the unroll): the chosen action and the behaviour policy
logits. -/
structure AgentOut (L α : Type) where
  action : α
  policy_logits : L

/-- One step of `learner_outputs` (the re-evaluation of the unroll by the
current model inside `compute_loss`): the target policy logits and the value
baseline. -/
structure LearnerOut (L : Type) where
  policy_logits : L
  baseline : Rat

/-- The keyword arguments that `compute_loss` passes to
`vtrace.from_importance_weights` (learner.py lines 105-112), one batch
column. -/
structure VTraceCall where
  target_action_log_probs : List Rat
  behaviour_action_log_probs : List Rat
  discounts : List Rat
  rewards : List Rat
  values : List Rat
  bootstrap_value : Rat

/-- The data plumbing of `compute_loss` up to the V-trace call (learner.py
lines 86-112), one batch column: bootstrap from the last learner baseline,
trim the trailing step from the agent and learner outputs, take rewards and
done from `env_outputs[1:]`, optionally clip rewards
(`if FLAGS.max_abs_reward:` — the zero value disables clipping), build
discounts as `cast(~done) * discounting` and the two log-prob lists from the
trimmed outputs.  `logProb` stands for
`parametric_action_distribution.log_prob`, an external collaborator. -/
def computeLossArgs {L α ω : Type} (discounting maxAbsReward : Rat)
    (logProb : L → α → Rat) (envOutputs : List (EnvOutput ω))
    (agentOutputs : List (AgentOut L α))
    (learnerOutputs : List (LearnerOut L)) : VTraceCall :=
  let bootstrap_value := (learnerOutputs.map (fun l => l.baseline)).getLastD 0
  let agentT := agentOutputs.dropLast
  let envT := envOutputs.drop 1
  let learnerT := learnerOutputs.dropLast
  let rewards0 := envT.map (fun o => o.reward)
  let rewards := if maxAbsReward ≠ 0
    then rewards0.map (fun r => min (max r (-maxAbsReward)) maxAbsReward)
    else rewards0
  let discounts :=
    envT.map (fun o => (if o.done then (0 : Rat) else 1) * discounting)
  { target_action_log_probs :=
      List.zipWith (fun l a => logProb l.policy_logits a.action) learnerT agentT
    behaviour_action_log_probs :=
      agentT.map (fun a => logProb a.policy_logits a.action)
    discounts := discounts
    rewards := rewards
    values := learnerT.map (fun l => l.baseline)
    bootstrap_value := bootstrap_value }

/-- C6: with reward clipping disabled, in an unroll of `n + 1` steps the
V-trace call built by `compute_loss` bootstraps from the final learner
baseline, trims the final step from the agent and learner outputs (all
per-step lists have length `n`, indices `t < n` read the untrimmed index
`t`), takes rewards and done flags from the environment output at `t + 1`,
and uses discount `0` where that step is terminal and the configured
discounting factor otherwise. -/
theorem c6_bootstrap_and_trim {L α ω : Type} (n : Nat) (discounting : Rat)
    (logProb : L → α → Rat) (envOutputs : List (EnvOutput ω))
    (agentOutputs : List (AgentOut L α))
    (learnerOutputs : List (LearnerOut L))
    (h1 : envOutputs.length = n + 1) (h2 : agentOutputs.length = n + 1)
    (h3 : learnerOutputs.length = n + 1) :
    (∀ lo, learnerOutputs[n]? = some lo →
      (computeLossArgs discounting 0 logProb envOutputs agentOutputs
        learnerOutputs).bootstrap_value = lo.baseline)
      ∧ ((computeLossArgs discounting 0 logProb envOutputs agentOutputs
            learnerOutputs).rewards.length = n
          ∧ (computeLossArgs discounting 0 logProb envOutputs agentOutputs
              learnerOutputs).values.length = n
          ∧ (computeLossArgs discounting 0 logProb envOutputs agentOutputs
              learnerOutputs).target_action_log_probs.length = n)
      ∧ (∀ t, t < n →
          (computeLossArgs discounting 0 logProb envOutputs agentOutputs
            learnerOutputs).rewards[t]?
            = (envOutputs[t + 1]?).map (fun o => o.reward))
      ∧ (∀ t, t < n →
          (computeLossArgs discounting 0 logProb envOutputs agentOutputs
            learnerOutputs).discounts[t]?
            = (envOutputs[t + 1]?).map
                (fun o => if o.done then 0 else discounting))
      ∧ (∀ t, t < n →
          (computeLossArgs discounting 0 logProb envOutputs agentOutputs
            learnerOutputs).values[t]?
            = (learnerOutputs[t]?).map (fun l => l.baseline))
      ∧ (∀ t lo ao, t < n → learnerOutputs[t]? = some lo →
          agentOutputs[t]? = some ao →
          (computeLossArgs discounting 0 logProb envOutputs agentOutputs
            learnerOutputs).target_action_log_probs[t]?
              = some (logProb lo.policy_logits ao.action)
            ∧ (computeLossArgs discounting 0 logProb envOutputs agentOutputs
                learnerOutputs).behaviour_action_log_probs[t]?
                = some (logProb ao.policy_logits ao.action)) := by
  have hrw : (computeLossArgs discounting 0 logProb envOutputs agentOutputs
      learnerOutputs).rewards = (envOutputs.drop 1).map (fun o => o.reward) := by
    simp only [computeLossArgs]
    rw [if_neg (by norm_num)]
  have hdl : ∀ (A : Type) (l : List A) (t : Nat), l.length = n + 1 → t < n →
      (l.dropLast)[t]? = l[t]? := by
    intro A l t hl ht
    rw [List.dropLast_eq_take, List.getElem?_take, hl]
    simp [ht]
  refine ⟨?_, ?_, ?_, ?_, ?_, ?_⟩
  · intro lo hlo
    show (learnerOutputs.map (fun l => l.baseline)).getLastD 0 = lo.baseline
    rw [List.getLastD_eq_getLast?, List.getLast?_eq_getElem?]
    rw [List.length_map, h3, Nat.add_sub_cancel, List.getElem?_map, hlo]
    rfl
  · refine ⟨?_, ?_, ?_⟩
    · rw [hrw]
      simp [h1]
    · show ((learnerOutputs.dropLast).map _).length = n
      simp [h3]
    · show (List.zipWith _ learnerOutputs.dropLast agentOutputs.dropLast).length
        = n
      simp [h2, h3]
  · intro t ht
    rw [hrw, List.getElem?_map, List.getElem?_drop, Nat.add_comm 1 t]
  · intro t ht
    show ((envOutputs.drop 1).map
        (fun o => (if o.done then (0 : Rat) else 1) * discounting))[t]? = _
    rw [List.getElem?_map, List.getElem?_drop, Nat.add_comm 1 t]
    cases envOutputs[t + 1]? with
    | none => rfl
    | some o =>
        show some _ = some _
        cases hdn : o.done <;> simp
  · intro t ht
    show ((learnerOutputs.dropLast).map (fun l => l.baseline))[t]? = _
    rw [List.getElem?_map, hdl _ learnerOutputs t h3 ht]
  · intro t lo ao ht hlo hao
    constructor
    · show (List.zipWith _ learnerOutputs.dropLast agentOutputs.dropLast)[t]?
        = _
      rw [getElem?_zipWith_some _ learnerOutputs.dropLast agentOutputs.dropLast
        t lo ao (by rw [hdl _ learnerOutputs t h3 ht]; exact hlo)
        (by rw [hdl _ agentOutputs t h2 ht]; exact hao)]
    · show ((agentOutputs.dropLast).map
        (fun a => logProb a.policy_logits a.action))[t]? = _
      rw [List.getElem?_map, hdl _ agentOutputs t h2 ht, hao]
      rfl

/-- The witness log-prob collaborator: logits and actions are rationals and
the log-prob is their sum. -/
def logProbC6 : Rat → Rat → Rat := fun l a => l + a

/-- The witness environment trace: one live step then a terminal step. -/
def envC6 : List (EnvOutput Unit) := [envOk, envDone]

/-- The witness behaviour outputs. -/
def agentC6 : List (AgentOut Rat Rat) := [⟨5, 3⟩, ⟨6, 4⟩]

/-- The witness learner outputs. -/
def learnerC6 : List (LearnerOut Rat) := [⟨1, 10⟩, ⟨2, 20⟩]

/-- C6 (witness): on a two-step unroll the bootstrap is the last baseline
(20), the reward passed at index 0 is the second step's reward, and the
discount at index 0 is 0 because the second step is terminal. -/
theorem c6_witness :
    (envC6.length = 1 + 1 ∧ agentC6.length = 1 + 1 ∧ learnerC6.length = 1 + 1)
      ∧ ((computeLossArgs (9 / 10) 0 logProbC6 envC6 agentC6
            learnerC6).bootstrap_value = (20 : Rat)
          ∧ (computeLossArgs (9 / 10) 0 logProbC6 envC6 agentC6
              learnerC6).rewards[0]? = some envDone.reward
          ∧ (computeLossArgs (9 / 10) 0 logProbC6 envC6 agentC6
              learnerC6).discounts[0]? = some 0) := by
  have h := c6_bootstrap_and_trim 1 (9 / 10) logProbC6 envC6 agentC6 learnerC6
    rfl rfl rfl
  refine ⟨⟨rfl, rfl, rfl⟩, h.1 ⟨2, 20⟩ rfl, ?_, ?_⟩
  · rw [h.2.2.1 0 (by norm_num)]
    rfl
  · rw [h.2.2.2.1 0 (by norm_num)]
    rfl

/-- The raw-reward bookkeeping of one actor step (actor.py lines 109-114):
`raw_reward[i] = float((info[i] or {}).get('score_reward', reward[i]))`.
The per-step `info` dictionary is modelled as an optional association list;
`none` and the empty list both fall back to the step's reward, matching the
Python truthiness of `(info[i] or {})`. -/
def actorRawReward (inf : Option (List (String × Rat))) (reward : Rat) : Rat :=
  ((inf.getD []).lookup "score_reward").getD reward

/-- C10: the raw reward sent with the next inference call is the info dict's
`score_reward` entry when the dict is present and has it, and the step's
ordinary reward when the dict is absent or lacks the key. -/
theorem c10_raw_reward (inf : Option (List (String × Rat))) (reward : Rat) :
    (inf = none → actorRawReward inf reward = reward)
      ∧ (∀ l v, inf = some l → l.lookup "score_reward" = some v →
          actorRawReward inf reward = v)
      ∧ (∀ l, inf = some l → l.lookup "score_reward" = none →
          actorRawReward inf reward = reward) := by
  refine ⟨?_, ?_, ?_⟩
  · intro h
    rw [h]
    rfl
  · intro l v h hv
    rw [h]
    show ((l.lookup "score_reward").getD reward) = v
    rw [hv]
    rfl
  · intro l h hv
    rw [h]
    show ((l.lookup "score_reward").getD reward) = reward
    rw [hv]
    rfl

/-- C10 (witness): a dict carrying `score_reward = 7` overrides a step
reward of 2; an absent dict and a dict without the key fall back to 2. -/
theorem c10_witness :
    ([(("score_reward" : String), (7 : Rat))].lookup "score_reward" = some 7
        ∧ ([(("other" : String), (9 : Rat))].lookup "score_reward"
            = (none : Option Rat)))
      ∧ (actorRawReward (some [("score_reward", 7)]) 2 = 7
          ∧ actorRawReward none 2 = 2
          ∧ actorRawReward (some [("other", 9)]) 2 = 2) := by
  refine ⟨⟨rfl, rfl⟩, ?_, ?_, ?_⟩
  · exact (c10_raw_reward (some [("score_reward", 7)]) 2).2.1 _ 7 rfl rfl
  · exact (c10_raw_reward none 2).1 rfl
  · exact (c10_raw_reward (some [("other", 9)]) 2).2.2 _ rfl rfl

end SeedRL
